import Mathlib

/-!
Shallow embedding of the Differential Evolution operator core of `popopt`
(`src/de/simple.rs`): `SimpleInitializer`, `SimpleMutationOperator`,
`SimpleCrossoverOperator` and `SimpleSelector`.

Modelling conventions:
* `NotNan<f64>` scores and vector components are modelled as `ℚ`
  (a totally ordered, NaN-free field with decidable comparisons).
* A `Variable` (`Vec<f64>` of components) is a `List ℚ`, a `Score` is `ℚ`.
* `anyhow::Result<T>` is `Except String T`; a Rust panic or an unbounded
  loop that has not yet terminated is modelled as `Option.none` around
  the result (fuel-based execution for the unbounded index-draw loop).
* Random sources: `StdRng` (a deterministic PRNG seeded by a `u64`) is
  modelled as a deterministic state machine on `Nat` (an LCG stands in
  for the concrete generator; the properties proved only use that it is
  a deterministic function of the seed and that a unit draw lands in
  `[0,1)`).  The unseeded ambient `rand::rng()` used by mutation and
  crossover is modelled by quantifying over an arbitrary stream of
  draws, so theorems hold for every possible random sequence.
-/

/-- A point of the search space: ordered fixed-length list of components
(`Variable` in `src/interface`, backed by `Vec<f64>`). -/
abbrev Variable := List ℚ

/-- Objective value; lower is better (`Score = NotNan<f64>`). -/
abbrev Score := ℚ

/-- The external objective: `Problem::evaluate(&Variable) -> anyhow::Result<Score>`.
A Lean function is deterministic, matching the spec's determinism assumption. -/
abbrev Problem := Variable → Except String Score

/-- Modelled from the spec: `Variable` elementwise addition.  The `Variable`
arithmetic impls live in the `interface` module, which is not under `src/`;
the spec says "Supports elementwise addition, elementwise subtraction, and
scalar-times-vector multiplication, all producing a new Variable of the same
dimension". -/
def varAdd (a b : Variable) : Variable := List.zipWith (fun x y => x + y) a b

/-- Modelled from the spec: `Variable` elementwise subtraction (see `varAdd`). -/
def varSub (a b : Variable) : Variable := List.zipWith (fun x y => x - y) a b

/-- Modelled from the spec: scalar-times-`Variable` multiplication (see `varAdd`). -/
def varScale (c : ℚ) (a : Variable) : Variable := a.map (fun x => c * x)

/-- Modulus of the modelled PRNG state space (`StdRng` state word). -/
def RNG_MOD : Nat := 2 ^ 64

/-- `StdRng::seed_from_u64`: deterministic injection of the seed into PRNG state. -/
def rngInit (seed : Nat) : Nat := seed % RNG_MOD

/-- One deterministic PRNG state transition (stands in for `StdRng` stepping). -/
def rngNext (st : Nat) : Nat := (6364136223846793005 * st + 1442695040888963407) % RNG_MOD

/-- The unit-interval value a PRNG state yields: a rational in `[0,1)`. -/
def rngUnit (st : Nat) : ℚ := ((st % 2 ^ 53 : Nat) : ℚ) / ((2 ^ 53 : Nat) : ℚ)

/-- `rng.random_range(l..u)` on floats: returns a value in `[l,u)` drawn from
the current state, and panics (`none`) when the range `l..u` is empty. -/
def randomRangeQ (l u : ℚ) (st : Nat) : Option ℚ :=
  if l < u then some (l + (u - l) * rngUnit st) else none

/-- `SimpleInitializer`: per-dimension bounds plus a pinned `u64` seed. -/
structure SimpleInitializer where
  bounds : List (ℚ × ℚ)
  seed : Nat

/-- `SimpleInitializer::with_seed(bounds, seed)`. -/
def SimpleInitializer.with_seed (bounds : List (ℚ × ℚ)) (seed : Nat) : SimpleInitializer :=
  ⟨bounds, seed⟩

/-- `SimpleInitializer::new(bounds)`: draws one seed from OS entropy
(modelled as the argument `osSeed`) and pins it via `with_seed`. -/
def SimpleInitializer.new (bounds : List (ℚ × ℚ)) (osSeed : Nat) : SimpleInitializer :=
  SimpleInitializer.with_seed bounds osSeed

/-- `SimpleInitializer::from_single_bound(lower, upper, dim)`. -/
def SimpleInitializer.from_single_bound (l u : ℚ) (dim : Nat) (osSeed : Nat) :
    SimpleInitializer :=
  SimpleInitializer.new (List.replicate dim (l, u)) osSeed

/-- The inner per-individual loop of `initialize`: one uniform draw per
configured bound, threading the PRNG state; `none` models the panic of
`random_range` on an empty `lower..upper` range. -/
def genVector : List (ℚ × ℚ) → Nat → Option (List ℚ × Nat)
  | [], st => some ([], st)
  | (l, u) :: rest, st =>
    match randomRangeQ l u st with
    | none => none
    | some x =>
      match genVector rest (rngNext st) with
      | none => none
      | some (xs, st2) => some (x :: xs, st2)

/-- The `for _ in 0..population_size` loop of `initialize`: generate a
vector, evaluate it (`?` propagates the error), accumulate.  Outer `none`
models a panic inside `random_range`. -/
def initLoop (p : Problem) (b : List (ℚ × ℚ)) :
    Nat → Nat → List Score × List Variable →
    Option (Except String (List Score × List Variable))
  | 0, _, acc => some (Except.ok acc)
  | k + 1, st, (scores, vars) =>
    match genVector b st with
    | none => none
    | some (x, st2) =>
      match p x with
      | Except.error e => some (Except.error e)
      | Except.ok sc => initLoop p b k st2 (scores ++ [sc], vars ++ [x])

/-- `SimpleInitializer::initialize(problem, population_size)`: re-seeds a
fresh `StdRng` from the pinned seed on every call, then runs the loop. -/
def initializePop (i : SimpleInitializer) (p : Problem) (n : Nat) :
    Option (Except String (List Score × List Variable)) :=
  initLoop p i.bounds n (rngInit i.seed) ([], [])

/-- PRNG state after generating `i` whole individuals from state `st`. -/
def genState (b : List (ℚ × ℚ)) : Nat → Nat → Option Nat
  | st, 0 => some st
  | st, i + 1 =>
    match genVector b st with
    | none => none
    | some (_, st2) => genState b st2 i

/-- The `i`-th individual vector `initialize` generates from state `st`. -/
def genNth (b : List (ℚ × ℚ)) (st : Nat) (i : Nat) : Option (List ℚ) :=
  match genState b st i with
  | none => none
  | some s0 =>
    match genVector b s0 with
    | none => none
    | some (x, _) => some x

/-- `SimpleMutationOperator`: holds the scale factor `F`. -/
structure SimpleMutationOperator where
  scale : ℚ

/-- The `while indices.len() < 3` loop of `mutate_one`: draw an index in
`[0,n)` from the stream `s`, push it when fresh.  `fuel` bounds the number
of iterations executed; `none` means the loop has not terminated within
`fuel` iterations (or `random_range(0..0)` panicked when `n = 0`). -/
def drawLoop (n : Nat) (s : Nat → Nat) : Nat → Nat → List Nat → Option (List Nat)
  | 0, _, acc => if 3 ≤ acc.length then some acc else none
  | fuel + 1, t, acc =>
    if 3 ≤ acc.length then some acc
    else if n = 0 then none
    else if s t % n ∈ acc then drawLoop n s fuel (t + 1) acc
    else drawLoop n s fuel (t + 1) (acc ++ [s t % n])

/-- `SimpleMutationOperator::mutate_one(current_population)`: draw three
distinct indices, then `pop[i0] + scale * (pop[i1] - pop[i2])`.  The code
always returns `Ok` once the loop terminates, so the embedding returns
`some v` on termination and `none` otherwise. -/
def mutate_one (op : SimpleMutationOperator) (pop : List Variable)
    (s : Nat → Nat) (fuel : Nat) : Option Variable :=
  match drawLoop pop.length s fuel 0 [] with
  | none => none
  | some idcs =>
    some (varAdd (pop.getD (idcs.getD 0 0) [])
      (varScale op.scale
        (varSub (pop.getD (idcs.getD 1 0) []) (pop.getD (idcs.getD 2 0) []))))

/-- `SimpleCrossoverOperator`: holds the crossover rate `CR`. -/
structure SimpleCrossoverOperator where
  crossover_rate : ℚ

/-- The per-gene loop of `crossover_one` over the zipped pair list: draw
`r` in `[0,1)` from the stream, take the mutant gene when `r < CR`. -/
def crossLoop (cr : ℚ) (r : Nat → ℚ) : List (ℚ × ℚ) → Nat → List ℚ
  | [], _ => []
  | (xc, xm) :: rest, t => (if r t < cr then xm else xc) :: crossLoop cr r rest (t + 1)

/-- `SimpleCrossoverOperator::crossover_one(v_current, v_mutant)`: zips the
two vectors (silently truncating to the shorter) and always returns `Ok`. -/
def crossover_one (op : SimpleCrossoverOperator) (vc vm : Variable)
    (r : Nat → ℚ) : Except String Variable :=
  Except.ok (crossLoop op.crossover_rate r (vc.zip vm) 0)

/-- `SimpleSelector::select_one(problem, s_current, v_current, v_trial)`:
evaluate the trial, keep it only on a strict improvement.  `SimpleSelector`
itself is a stateless unit struct, so no configuration argument appears. -/
def select_one (p : Problem) (s_current : Score) (v_current v_trial : Variable) :
    Except String (Score × Variable) :=
  match p v_trial with
  | Except.error e => Except.error e
  | Except.ok s_trial =>
    if s_trial < s_current then Except.ok (s_trial, v_trial)
    else Except.ok (s_current, v_current)

/-! ## Helper lemmas -/

theorem crossLoop_length (cr : ℚ) (r : Nat → ℚ) :
    ∀ (ps : List (ℚ × ℚ)) (t : Nat), (crossLoop cr r ps t).length = ps.length := by
  intro ps
  induction ps with
  | nil => intro t; rfl
  | cons hd tl ih =>
    intro t
    obtain ⟨xc, xm⟩ := hd
    simp [crossLoop, ih]

theorem crossLoop_elem (cr : ℚ) (r : Nat → ℚ) :
    ∀ (ps : List (ℚ × ℚ)) (t k : Nat), k < ps.length →
      (crossLoop cr r ps t).getD k 0 = (ps.getD k (0, 0)).1 ∨
      (crossLoop cr r ps t).getD k 0 = (ps.getD k (0, 0)).2 := by
  intro ps
  induction ps with
  | nil => intro t k hk; simp at hk
  | cons hd tl ih =>
    intro t k hk
    obtain ⟨xc, xm⟩ := hd
    cases k with
    | zero =>
      by_cases hc : r t < cr
      · right; simp [crossLoop, hc]
      · left; simp [crossLoop, hc]
    | succ k =>
      have hk' : k < tl.length := by simpa using hk
      simpa [crossLoop] using ih (t + 1) k hk'

theorem crossLoop_cr_zero (r : Nat → ℚ) (h : ∀ t, 0 ≤ r t) :
    ∀ (ps : List (ℚ × ℚ)) (t : Nat), crossLoop 0 r ps t = ps.map Prod.fst := by
  intro ps
  induction ps with
  | nil => intro t; rfl
  | cons hd tl ih =>
    intro t
    obtain ⟨xc, xm⟩ := hd
    have : ¬ r t < 0 := not_lt.mpr (h t)
    simp [crossLoop, this, ih]

theorem crossLoop_cr_one (r : Nat → ℚ) (h : ∀ t, r t < 1) :
    ∀ (ps : List (ℚ × ℚ)) (t : Nat), crossLoop 1 r ps t = ps.map Prod.snd := by
  intro ps
  induction ps with
  | nil => intro t; rfl
  | cons hd tl ih =>
    intro t
    obtain ⟨xc, xm⟩ := hd
    simp [crossLoop, h t, ih]

theorem zip_getD_fst (vc vm : List ℚ) (k : Nat) (h : k < (vc.zip vm).length) :
    ((vc.zip vm).getD k (0, 0)).1 = vc.getD k 0 := by
  induction vc generalizing vm k with
  | nil => simp [List.zip] at h
  | cons x xs ih =>
    cases vm with
    | nil => simp [List.zip] at h
    | cons y ys =>
      cases k with
      | zero => rfl
      | succ k =>
        have h' : k < (xs.zip ys).length := by simpa [List.zip_cons_cons] using h
        simpa [List.zip_cons_cons] using ih ys k h'

theorem zip_getD_snd (vc vm : List ℚ) (k : Nat) (h : k < (vc.zip vm).length) :
    ((vc.zip vm).getD k (0, 0)).2 = vm.getD k 0 := by
  induction vc generalizing vm k with
  | nil => simp [List.zip] at h
  | cons x xs ih =>
    cases vm with
    | nil => simp [List.zip] at h
    | cons y ys =>
      cases k with
      | zero => rfl
      | succ k =>
        have h' : k < (xs.zip ys).length := by simpa [List.zip_cons_cons] using h
        simpa [List.zip_cons_cons] using ih ys k h'

theorem crossover_one_shape (op : SimpleCrossoverOperator) (vc vm : Variable)
    (r : Nat → ℚ) :
    ∃ out, crossover_one op vc vm r = Except.ok out ∧
      out.length = min vc.length vm.length ∧
      ∀ k, k < out.length → out.getD k 0 = vc.getD k 0 ∨ out.getD k 0 = vm.getD k 0 := by
  refine ⟨crossLoop op.crossover_rate r (vc.zip vm) 0, rfl, ?_, ?_⟩
  · rw [crossLoop_length, List.length_zip]
  · intro k hk
    rw [crossLoop_length] at hk
    have := crossLoop_elem op.crossover_rate r (vc.zip vm) 0 k hk
    rcases this with h1 | h2
    · left; rw [h1, zip_getD_fst vc vm k hk]
    · right; rw [h2, zip_getD_snd vc vm k hk]

/-! ## Claim theorems: Selector and Crossover -/

/-- C1: for a trial whose evaluation succeeds with `s_trial`, `select_one`
returns `(s_trial, v_trial)` when `s_trial < s_current` strictly, and the
unchanged `(s_current, v_current)` in every other case (ties included). -/
theorem selector_strict_less_wins (p : Problem) (sc : Score) (vc vt : Variable)
    (st : Score) (h : p vt = Except.ok st) :
    (st < sc → select_one p sc vc vt = Except.ok (st, vt)) ∧
    (¬ st < sc → select_one p sc vc vt = Except.ok (sc, vc)) := by
  unfold select_one
  rw [h]
  constructor
  · intro hlt; simp [hlt]
  · intro hge; simp [hge]

/-- Witness for C1: a strict improvement is accepted at a concrete input. -/
theorem selector_strict_less_wins_app :
    select_one (fun _ => Except.ok 1) 2 [4] [5] = Except.ok (1, [5]) :=
  (selector_strict_less_wins (fun _ => Except.ok 1) 2 [4] [5] 1 rfl).1 (by norm_num)

/-- C10: `crossover_one` never returns an error; the output has length
`min` of the input lengths and each gene comes from the same index of the
current or the mutant vector. -/
theorem crossover_total_truncating (op : SimpleCrossoverOperator) (vc vm : Variable)
    (r : Nat → ℚ) :
    ∃ out, crossover_one op vc vm r = Except.ok out ∧
      out.length = min vc.length vm.length ∧
      ∀ k, k < out.length → out.getD k 0 = vc.getD k 0 ∨ out.getD k 0 = vm.getD k 0 :=
  crossover_one_shape op vc vm r

/-- C3 counterexample: on inputs of dimension 1 and 2, `crossover_one`
returns `Ok` (the zipped, truncated trial), not an error. -/
theorem crossover_mismatch_cex :
    crossover_one ⟨1/2⟩ ([1] : Variable) ([2, 3] : Variable) (fun _ => 0) =
      Except.ok ([2] : Variable) := by
  norm_num [crossover_one, crossLoop]

/-- C3 amended: on inputs of unequal dimension, `crossover_one` does not
return an error; it returns `Ok` with a trial vector silently truncated to
the shorter input's length. -/
theorem crossover_mismatch_truncates (op : SimpleCrossoverOperator) (vc vm : Variable)
    (r : Nat → ℚ) (h : vc.length ≠ vm.length) :
    ∃ out, crossover_one op vc vm r = Except.ok out ∧
      out.length = min vc.length vm.length := by
  obtain ⟨out, h1, h2, _⟩ := crossover_one_shape op vc vm r
  exact ⟨out, h1, h2⟩

/-- Witness for the amended C3 at a concrete mismatched input. -/
theorem crossover_mismatch_truncates_app :
    ∃ out, crossover_one ⟨1/2⟩ ([5] : Variable) ([6, 7] : Variable) (fun _ => 1) =
      Except.ok out ∧ out.length = min 1 2 :=
  crossover_mismatch_truncates ⟨1/2⟩ [5] [6, 7] (fun _ => 1) (by decide)

/-- C6: for equal-dimension inputs and any draw stream taking values in
`[0,1)`, crossover rate 0 yields exactly the current vector and crossover
rate 1 yields exactly the mutant vector. -/
theorem crossover_rate_boundary (vc vm : Variable) (r : Nat → ℚ)
    (hlen : vc.length = vm.length) (hr : ∀ t, 0 ≤ r t ∧ r t < 1) :
    crossover_one ⟨0⟩ vc vm r = Except.ok vc ∧
    crossover_one ⟨1⟩ vc vm r = Except.ok vm := by
  unfold crossover_one
  constructor
  · rw [crossLoop_cr_zero r (fun t => (hr t).1)]
    rw [List.map_fst_zip vc vm (le_of_eq hlen)]
  · rw [crossLoop_cr_one r (fun t => (hr t).2)]
    rw [List.map_snd_zip vc vm (le_of_eq hlen.symm)]

/-- Witness for C6 at a concrete equal-dimension input and stream. -/
theorem crossover_rate_boundary_app :
    crossover_one ⟨0⟩ ([1, 2] : Variable) ([3, 4] : Variable) (fun _ => 1/2) =
      Except.ok ([1, 2] : Variable) ∧
    crossover_one ⟨1⟩ ([1, 2] : Variable) ([3, 4] : Variable) (fun _ => 1/2) =
      Except.ok ([3, 4] : Variable) :=
  crossover_rate_boundary [1, 2] [3, 4] (fun _ => 1/2) rfl (fun t => by norm_num)

/-- C7: initialization is a function of (bounds, seed, problem, size) only —
two instances agreeing on bounds and seed produce identical `(scores,
variables)` outputs; since `initialize` re-seeds its generator from the
pinned `seed` field on each call (and `new` pins an entropy-drawn seed at
construction), repeated calls on one instance are the `i1 = i2` case. -/
theorem initializer_seed_determinism (i1 i2 : SimpleInitializer) (p : Problem)
    (n : Nat) (hb : i1.bounds = i2.bounds) (hs : i1.seed = i2.seed) :
    initializePop i1 p n = initializePop i2 p n := by
  unfold initializePop
  rw [hb, hs]

/-- Witness for C7: an instance built by `new` with entropy draw 42 and one
built by `with_seed 42` over the same bounds initialize identically. -/
theorem initializer_seed_determinism_app :
    initializePop (SimpleInitializer.new [(0, 1)] 42) (fun _ => Except.ok 0) 2 =
    initializePop (SimpleInitializer.with_seed [(0, 1)] 42) (fun _ => Except.ok 0) 2 :=
  initializer_seed_determinism (SimpleInitializer.new [(0, 1)] 42)
    (SimpleInitializer.with_seed [(0, 1)] 42) (fun _ => Except.ok 0) 2 rfl rfl

/-! ## Mutation: index-draw loop lemmas -/

theorem nodup_lt_length_le (n : Nat) (acc : List Nat) (hnd : acc.Nodup)
    (hlt : ∀ x ∈ acc, x < n) : acc.length ≤ n := by
  classical
  have hsub : acc.toFinset ⊆ Finset.range n := by
    intro x hx
    rw [List.mem_toFinset] at hx
    exact Finset.mem_range.mpr (hlt x hx)
  have hcard := Finset.card_le_card hsub
  rwa [List.toFinset_card_of_nodup hnd, Finset.card_range] at hcard

theorem drawLoop_invariant (n : Nat) (s : Nat → Nat) :
    ∀ (fuel t : Nat) (acc : List Nat), acc.Nodup → (∀ x ∈ acc, x < n) →
      acc.length ≤ 3 →
      ∀ l, drawLoop n s fuel t acc = some l →
        l.Nodup ∧ (∀ x ∈ l, x < n) ∧ l.length = 3 := by
  intro fuel
  induction fuel with
  | zero =>
    intro t acc hnd hlt hle3 l hl
    by_cases h3 : 3 ≤ acc.length
    · simp only [drawLoop, if_pos h3, Option.some.injEq] at hl
      subst hl
      exact ⟨hnd, hlt, le_antisymm hle3 h3⟩
    · simp only [drawLoop, if_neg h3] at hl
      exact Option.noConfusion hl
  | succ fuel ih =>
    intro t acc hnd hlt hle3 l hl
    by_cases h3 : 3 ≤ acc.length
    · simp only [drawLoop, if_pos h3, Option.some.injEq] at hl
      subst hl
      exact ⟨hnd, hlt, le_antisymm hle3 h3⟩
    · by_cases hn0 : n = 0
      · simp only [drawLoop, if_neg h3, if_pos hn0] at hl
        exact Option.noConfusion hl
      · have hi : s t % n < n := Nat.mod_lt _ (Nat.pos_of_ne_zero hn0)
        by_cases hmem : s t % n ∈ acc
        · simp only [drawLoop, if_neg h3, if_neg hn0, if_pos hmem] at hl
          exact ih (t + 1) acc hnd hlt hle3 l hl
        · simp only [drawLoop, if_neg h3, if_neg hn0, if_neg hmem] at hl
          refine ih (t + 1) (acc ++ [s t % n]) ?_ ?_ ?_ l hl
          · simp [List.nodup_append, hnd, hmem]
          · intro x hx
            rcases List.mem_append.mp hx with hx1 | hx2
            · exact hlt x hx1
            · rw [List.mem_singleton] at hx2
              exact hx2 ▸ hi
          · have : acc.length < 3 := lt_of_not_ge h3
            simp only [List.length_append, List.length_singleton]
            omega

theorem drawLoop_stuck (n : Nat) (s : Nat → Nat) (hn : n < 3) :
    ∀ (fuel t : Nat) (acc : List Nat), acc.Nodup → (∀ x ∈ acc, x < n) →
      drawLoop n s fuel t acc = none := by
  intro fuel
  induction fuel with
  | zero =>
    intro t acc hnd hlt
    have hlen : acc.length ≤ n := nodup_lt_length_le n acc hnd hlt
    have h3 : ¬ 3 ≤ acc.length := by omega
    simp only [drawLoop, if_neg h3]
  | succ fuel ih =>
    intro t acc hnd hlt
    have hlen : acc.length ≤ n := nodup_lt_length_le n acc hnd hlt
    have h3 : ¬ 3 ≤ acc.length := by omega
    by_cases hn0 : n = 0
    · simp only [drawLoop, if_neg h3, if_pos hn0]
    · have hi : s t % n < n := Nat.mod_lt _ (Nat.pos_of_ne_zero hn0)
      by_cases hmem : s t % n ∈ acc
      · simp only [drawLoop, if_neg h3, if_neg hn0, if_pos hmem]
        exact ih (t + 1) acc hnd hlt
      · simp only [drawLoop, if_neg h3, if_neg hn0, if_neg hmem]
        refine ih (t + 1) (acc ++ [s t % n]) ?_ ?_
        · simp [List.nodup_append, hnd, hmem]
        · intro x hx
          rcases List.mem_append.mp hx with hx1 | hx2
          · exact hlt x hx1
          · rw [List.mem_singleton] at hx2
            exact hx2 ▸ hi

theorem list_len_three (l : List Nat) (h : l.length = 3) : ∃ a b c, l = [a, b, c] := by
  rcases l with _ | ⟨a, _ | ⟨b, _ | ⟨c, _ | ⟨d, tl⟩⟩⟩⟩
  · simp at h
  · simp at h
  · simp at h
  · exact ⟨a, b, c, rfl⟩
  · simp only [List.length_cons] at h
    omega

theorem zipWith_getD (f : ℚ → ℚ → ℚ) :
    ∀ (a b : List ℚ) (k : Nat), k < a.length → k < b.length →
      (List.zipWith f a b).getD k 0 = f (a.getD k 0) (b.getD k 0) := by
  intro a
  induction a with
  | nil => intro b k h1 h2; simp at h1
  | cons x xs ih =>
    intro b k h1 h2
    cases b with
    | nil => simp at h2
    | cons y ys =>
      cases k with
      | zero => rfl
      | succ k =>
        have h1' : k < xs.length := by simpa using h1
        have h2' : k < ys.length := by simpa using h2
        simpa using ih ys k h1' h2'

theorem map_getD (f : ℚ → ℚ) :
    ∀ (a : List ℚ) (k : Nat), k < a.length → (a.map f).getD k 0 = f (a.getD k 0) := by
  intro a
  induction a with
  | nil => intro k h; simp at h
  | cons x xs ih =>
    intro k h
    cases k with
    | zero => rfl
    | succ k =>
      have h' : k < xs.length := by simpa using h
      simpa using ih k h'

theorem list_getD_mem {α : Type} (l : List α) (d : α) (i : Nat) (h : i < l.length) :
    l.getD i d ∈ l := by
  rw [List.getD_eq_getElem?_getD, List.getElem?_eq_getElem h, Option.getD_some]
  exact List.getElem_mem h

/-! ## Claim theorems: Mutation -/

/-- C2 (code-bug evidence): with a population of size < 3, the index-draw
loop of `mutate_one` never produces a result — for every draw stream and
every number of executed iterations the call has not returned (for sizes 1
and 2 the loop spins forever, for size 0 `random_range(0..0)` panics), so
the call neither terminates normally nor returns an error. -/
theorem mutate_one_small_pop_no_return (op : SimpleMutationOperator)
    (pop : List Variable) (s : Nat → Nat) (fuel : Nat) (h : pop.length < 3) :
    mutate_one op pop s fuel = none := by
  unfold mutate_one
  rw [drawLoop_stuck pop.length s h fuel 0 [] List.nodup_nil (by simp)]

/-- Witness for C2 at a concrete two-member population. -/
theorem mutate_one_small_pop_no_return_app :
    ([[1], [2]] : List Variable).length < 3 ∧
      mutate_one ⟨2⟩ ([[1], [2]] : List Variable) (fun _ => 0) 10 = none :=
  ⟨by decide, mutate_one_small_pop_no_return ⟨2⟩ [[1], [2]] (fun _ => 0) 10 (by decide)⟩

/-- C5: whenever the index-draw loop of `mutate_one` returns (population
size ≥ 3), the drawn index list has exactly three pairwise-distinct entries,
each in `[0, population_size)`. -/
theorem mutate_one_indices_distinct (pop : List Variable) (s : Nat → Nat)
    (fuel : Nat) (l : List Nat) (h3 : 3 ≤ pop.length)
    (hl : drawLoop pop.length s fuel 0 [] = some l) :
    l.length = 3 ∧ l.Nodup ∧ ∀ x ∈ l, x < pop.length := by
  have hinv := drawLoop_invariant pop.length s fuel 0 [] List.nodup_nil
    (by simp) (by simp) l hl
  exact ⟨hinv.2.2, hinv.1, hinv.2.1⟩

/-- Witness for C5: a concrete three-member population and draw stream. -/
theorem mutate_one_indices_distinct_app :
    ([0, 1, 2] : List Nat).length = 3 ∧ ([0, 1, 2] : List Nat).Nodup ∧
      ∀ x ∈ ([0, 1, 2] : List Nat), x < ([[1], [2], [3]] : List Variable).length :=
  mutate_one_indices_distinct [[1], [2], [3]] (fun t => t) 5 [0, 1, 2]
    (by decide) (by decide)

/-- C4: when `mutate_one` returns on a population of equal-dimension
vectors, its output is `base + F * (diff1 - diff2)` elementwise, where
`base, diff1, diff2` are the population members at the three drawn indices
in draw order. -/
theorem mutate_one_rand1_formula (op : SimpleMutationOperator) (pop : List Variable)
    (s : Nat → Nat) (fuel : Nat) (d : Nat) (hd : ∀ w ∈ pop, w.length = d)
    (h3 : 3 ≤ pop.length) (v : Variable) (hv : mutate_one op pop s fuel = some v) :
    ∃ i0 i1 i2, drawLoop pop.length s fuel 0 [] = some [i0, i1, i2] ∧
      i0 < pop.length ∧ i1 < pop.length ∧ i2 < pop.length ∧
      v.length = d ∧
      ∀ k, k < d →
        v.getD k 0 = (pop.getD i0 []).getD k 0 +
          op.scale * ((pop.getD i1 []).getD k 0 - (pop.getD i2 []).getD k 0) := by
  unfold mutate_one at hv
  cases hdr : drawLoop pop.length s fuel 0 [] with
  | none => rw [hdr] at hv; exact Option.noConfusion hv
  | some l =>
    rw [hdr] at hv
    have hinv := drawLoop_invariant pop.length s fuel 0 [] List.nodup_nil
      (by simp) (by simp) l hdr
    obtain ⟨a, b, c, rfl⟩ := list_len_three l hinv.2.2
    have ha : a < pop.length := hinv.2.1 a (by simp)
    have hb : b < pop.length := hinv.2.1 b (by simp)
    have hc : c < pop.length := hinv.2.1 c (by simp)
    have hva := Option.some.inj hv
    have hlen0 : (pop.getD a []).length = d := hd _ (list_getD_mem pop [] a ha)
    have hlen1 : (pop.getD b []).length = d := hd _ (list_getD_mem pop [] b hb)
    have hlen2 : (pop.getD c []).length = d := hd _ (list_getD_mem pop [] c hc)
    have hsub : (varSub (pop.getD b []) (pop.getD c [])).length = d := by
      rw [varSub, List.length_zipWith, hlen1, hlen2, Nat.min_self]
    have hscale : (varScale op.scale (varSub (pop.getD b []) (pop.getD c []))).length = d := by
      rw [varScale, List.length_map, hsub]
    have hvlen : v.length = d := by
      rw [← hva]
      show (varAdd (pop.getD a [])
        (varScale op.scale (varSub (pop.getD b []) (pop.getD c [])))).length = d
      rw [varAdd, List.length_zipWith, hlen0, hscale, Nat.min_self]
    refine ⟨a, b, c, rfl, ha, hb, hc, hvlen, ?_⟩
    intro k hk
    rw [← hva]
    show (varAdd (pop.getD a []) (varScale op.scale
      (varSub (pop.getD b []) (pop.getD c [])))).getD k 0 = _
    rw [varAdd, zipWith_getD _ _ _ k (hlen0 ▸ hk) (hscale ▸ hk)]
    rw [varScale, map_getD _ _ k (hsub ▸ hk)]
    rw [varSub, zipWith_getD _ _ _ k (hlen1 ▸ hk) (hlen2 ▸ hk)]

/-- Witness for C4: population `[[1],[2],[5]]`, scale 2, identity stream —
drawn indices `[0,1,2]`, mutant `[1 + 2 * (2 - 5)] = [-5]`. -/
theorem mutate_one_rand1_formula_app :
    ∃ i0 i1 i2,
      drawLoop ([[1], [2], [5]] : List Variable).length (fun t => t) 5 0 [] =
        some [i0, i1, i2] ∧
      i0 < 3 ∧ i1 < 3 ∧ i2 < 3 ∧
      ([-5] : Variable).length = 1 ∧
      ∀ k, k < 1 →
        ([-5] : Variable).getD k 0 =
          (([[1], [2], [5]] : List Variable).getD i0 []).getD k 0 +
            2 * ((([[1], [2], [5]] : List Variable).getD i1 []).getD k 0 -
              (([[1], [2], [5]] : List Variable).getD i2 []).getD k 0) :=
  mutate_one_rand1_formula ⟨2⟩ [[1], [2], [5]] (fun t => t) 5 1
    (by decide) (by decide) [-5]
    (by norm_num [mutate_one, drawLoop, varAdd, varSub, varScale])

/-! ## Initializer: draw-range and loop lemmas -/

theorem rngUnit_nonneg (st : Nat) : 0 ≤ rngUnit st := by
  unfold rngUnit
  positivity

theorem rngUnit_lt_one (st : Nat) : rngUnit st < 1 := by
  unfold rngUnit
  have hpos : (0 : ℚ) < ((2 ^ 53 : Nat) : ℚ) := by
    have h : (0 : Nat) < 2 ^ 53 := by norm_num
    exact_mod_cast h
  rw [div_lt_one hpos]
  have h : st % 2 ^ 53 < 2 ^ 53 := Nat.mod_lt st (by norm_num)
  exact_mod_cast h

theorem randomRangeQ_mem (l u : ℚ) (st : Nat) (x : ℚ)
    (h : randomRangeQ l u st = some x) : l ≤ x ∧ x < u := by
  unfold randomRangeQ at h
  by_cases hlt : l < u
  · rw [if_pos hlt, Option.some.injEq] at h
    subst h
    have h1 := rngUnit_nonneg st
    have h2 := rngUnit_lt_one st
    have hpos : (0 : ℚ) < u - l := by linarith
    constructor
    · nlinarith
    · nlinarith
  · rw [if_neg hlt] at h
    exact Option.noConfusion h

/-- A vector lies inside the configured per-dimension bounds:
dimension matches the bound count and each component is in `[lower, upper)`. -/
def inBounds (b : List (ℚ × ℚ)) (v : List ℚ) : Prop :=
  v.length = b.length ∧
  ∀ k, k < b.length →
    (b.getD k (0, 0)).1 ≤ v.getD k 0 ∧ v.getD k 0 < (b.getD k (0, 0)).2

theorem genVector_inBounds :
    ∀ (b : List (ℚ × ℚ)) (st : Nat) (x : List ℚ) (st2 : Nat),
      genVector b st = some (x, st2) → inBounds b x := by
  intro b
  induction b with
  | nil =>
    intro st x st2 h
    simp only [genVector, Option.some.injEq, Prod.mk.injEq] at h
    refine ⟨?_, ?_⟩
    · rw [← h.1]; rfl
    · intro k hk; simp at hk
  | cons hd rest ih =>
    intro st x st2 h
    obtain ⟨l, u⟩ := hd
    unfold genVector at h
    cases hr : randomRangeQ l u st with
    | none => rw [hr] at h; exact Option.noConfusion h
    | some x0 =>
      rw [hr] at h
      cases hg : genVector rest (rngNext st) with
      | none => rw [hg] at h; exact Option.noConfusion h
      | some pr =>
        obtain ⟨xs, st3⟩ := pr
        rw [hg] at h
        simp only [Option.some.injEq, Prod.mk.injEq] at h
        obtain ⟨hx, _⟩ := h
        subst hx
        have hxs := ih (rngNext st) xs st3 hg
        have hx0 := randomRangeQ_mem l u st x0 hr
        unfold inBounds at hxs ⊢
        refine ⟨?_, ?_⟩
        · simp [hxs.1]
        · intro k hk
          cases k with
          | zero => simpa using hx0
          | succ k =>
            have hk' : k < rest.length := by simpa using hk
            simpa using hxs.2 k hk'

theorem initLoop_ok_spec (p : Problem) (b : List (ℚ × ℚ)) :
    ∀ (k st : Nat) (scores : List Score) (vars : List Variable)
      (s2 : List Score) (vs : List Variable),
      initLoop p b k st (scores, vars) = some (Except.ok (s2, vs)) →
      s2.length = scores.length + k ∧ vs.length = vars.length + k ∧
      ∀ v ∈ vs, v ∈ vars ∨ (inBounds b v ∧ ∃ sc, p v = Except.ok sc) := by
  intro k
  induction k with
  | zero =>
    intro st scores vars s2 vs h
    simp only [initLoop, Option.some.injEq, Except.ok.injEq, Prod.mk.injEq] at h
    obtain ⟨h1, h2⟩ := h
    subst h1
    subst h2
    exact ⟨rfl, rfl, fun v hv => Or.inl hv⟩
  | succ k ih =>
    intro st scores vars s2 vs h
    unfold initLoop at h
    split at h
    · exact Option.noConfusion h
    · rename_i x st3 hg
      split at h
      · rename_i e hp
        simp at h
      · rename_i sc hp
        have hrec := ih st3 (scores ++ [sc]) (vars ++ [x]) s2 vs h
        obtain ⟨hL1, hL2, hmem⟩ := hrec
        refine ⟨?_, ?_, ?_⟩
        · rw [hL1, List.length_append, List.length_singleton]; omega
        · rw [hL2, List.length_append, List.length_singleton]; omega
        · intro v hv
          rcases hmem v hv with hin | hpr
          · rcases List.mem_append.mp hin with h1 | h2
            · exact Or.inl h1
            · rw [List.mem_singleton] at h2
              subst h2
              exact Or.inr ⟨genVector_inBounds b st v st3 hg, ⟨sc, hp⟩⟩
          · exact Or.inr hpr

theorem initLoop_error_spec (p : Problem) (b : List (ℚ × ℚ)) :
    ∀ (k st : Nat) (acc : List Score × List Variable) (e : String),
      initLoop p b k st acc = some (Except.error e) → ∃ v, p v = Except.error e := by
  intro k
  induction k with
  | zero =>
    intro st acc e h
    simp [initLoop] at h
  | succ k ih =>
    intro st acc e h
    obtain ⟨scores, vars⟩ := acc
    unfold initLoop at h
    split at h
    · exact Option.noConfusion h
    · rename_i x st3 hg
      split at h
      · rename_i e2 hp
        have he : e2 = e := by simpa using h
        exact ⟨x, he ▸ hp⟩
      · rename_i sc hp
        exact ih st3 (scores ++ [sc], vars ++ [x]) e h

theorem genNth_zero_of_some (b : List (ℚ × ℚ)) (st : Nat) (x : List ℚ) (st3 : Nat)
    (hg : genVector b st = some (x, st3)) : genNth b st 0 = some x := by
  simp only [genNth, genState, hg]

theorem genNth_zero_of_none (b : List (ℚ × ℚ)) (st : Nat)
    (hg : genVector b st = none) : genNth b st 0 = none := by
  simp only [genNth, genState, hg]

theorem genNth_succ_of_some (b : List (ℚ × ℚ)) (st : Nat) (x : List ℚ) (st3 : Nat)
    (j : Nat) (hg : genVector b st = some (x, st3)) :
    genNth b st (j + 1) = genNth b st3 j := by
  have hstate : genState b st (j + 1) = genState b st3 j := by
    simp only [genState, hg]
  simp only [genNth, hstate]

theorem genNth_succ_of_none (b : List (ℚ × ℚ)) (st : Nat) (j : Nat)
    (hg : genVector b st = none) : genNth b st (j + 1) = none := by
  have hstate : genState b st (j + 1) = none := by
    simp only [genState, hg]
  simp only [genNth, hstate]

theorem initLoop_fail_fast (p : Problem) (b : List (ℚ × ℚ)) :
    ∀ (j k st : Nat) (acc : List Score × List Variable) (v : List ℚ) (e : String),
      j < k → genNth b st j = some v → p v = Except.error e →
      (∀ m, m < j → ∀ w, genNth b st m = some w → ∃ sc, p w = Except.ok sc) →
      initLoop p b k st acc = some (Except.error e) := by
  intro j
  induction j with
  | zero =>
    intro k st acc v e hjk hnth hpv hpre
    obtain ⟨scores, vars⟩ := acc
    cases k with
    | zero => omega
    | succ k =>
      cases hg : genVector b st with
      | none =>
        rw [genNth_zero_of_none b st hg] at hnth
        exact Option.noConfusion hnth
      | some pr =>
        obtain ⟨x, st3⟩ := pr
        rw [genNth_zero_of_some b st x st3 hg] at hnth
        have hx : x = v := Option.some.inj hnth
        subst hx
        simp only [initLoop, hg, hpv]
  | succ j ih =>
    intro k st acc v e hjk hnth hpv hpre
    obtain ⟨scores, vars⟩ := acc
    cases k with
    | zero => omega
    | succ k =>
      cases hg : genVector b st with
      | none =>
        rw [genNth_succ_of_none b st j hg] at hnth
        exact Option.noConfusion hnth
      | some pr =>
        obtain ⟨x, st3⟩ := pr
        have h0 : genNth b st 0 = some x := genNth_zero_of_some b st x st3 hg
        obtain ⟨sc, hsc⟩ := hpre 0 (Nat.succ_pos j) x h0
        have hnth' : genNth b st3 j = some v := by
          rw [← genNth_succ_of_some b st x st3 j hg]
          exact hnth
        have hpre' : ∀ m, m < j → ∀ w, genNth b st3 m = some w →
            ∃ sc2, p w = Except.ok sc2 := by
          intro m hm w hw
          apply hpre (m + 1) (by omega) w
          rw [genNth_succ_of_some b st x st3 m hg]
          exact hw
        have hstep := ih k st3 (scores ++ [sc], vars ++ [x]) v e (by omega) hnth' hpv hpre'
        simp only [initLoop, hg, hsc]
        exact hstep

/-! ## Claim theorems: Initializer -/

/-- C8: initialization fails fast — when the objective fails on the first
generated individual that fails (index `j`, all earlier ones succeeding),
the whole call returns exactly that error; any error the call returns is
an objective-evaluation error on some generated vector; and a successful
call always carries exactly `population_size` scores and vectors, never a
partial population. -/
theorem initialize_fail_fast (i : SimpleInitializer) (p : Problem) (n : Nat) :
    (∀ j v e, j < n → genNth i.bounds (rngInit i.seed) j = some v →
      p v = Except.error e →
      (∀ m, m < j → ∀ w, genNth i.bounds (rngInit i.seed) m = some w →
        ∃ sc, p w = Except.ok sc) →
      initializePop i p n = some (Except.error e)) ∧
    (∀ e, initializePop i p n = some (Except.error e) →
      ∃ v, p v = Except.error e) ∧
    (∀ s2 vs, initializePop i p n = some (Except.ok (s2, vs)) →
      s2.length = n ∧ vs.length = n) := by
  refine ⟨?_, ?_, ?_⟩
  · intro j v e hj hnth hpv hpre
    exact initLoop_fail_fast p i.bounds j n (rngInit i.seed) ([], []) v e hj hnth hpv hpre
  · intro e he
    exact initLoop_error_spec p i.bounds n (rngInit i.seed) ([], []) e he
  · intro s2 vs hok
    have hs := initLoop_ok_spec p i.bounds n (rngInit i.seed) [] [] s2 vs hok
    exact ⟨by simpa using hs.1, by simpa using hs.2.1⟩

/-- Witness for C8: with an objective that always fails, a two-individual
initialization over bounds `[(0,1)]` with seed 0 returns that error. -/
theorem initialize_fail_fast_app :
    initializePop (SimpleInitializer.with_seed [(0, 1)] 0)
      (fun _ => Except.error "boom") 2 = some (Except.error "boom") :=
  (initialize_fail_fast (SimpleInitializer.with_seed [(0, 1)] 0)
      (fun _ => Except.error "boom") 2).1 0 [0] "boom" (by omega)
    (by norm_num [genNth, genState, genVector, randomRangeQ, rngUnit, rngInit,
      RNG_MOD, SimpleInitializer.with_seed])
    rfl
    (fun m hm => absurd hm (Nat.not_lt_zero m))

/-- C9: every successful initialization returns exactly `population_size`
scores and vectors, each vector of dimension equal to the configured bound
count with every component inside its `[lower, upper)` interval. -/
theorem initialize_success_shape (i : SimpleInitializer) (p : Problem) (n : Nat)
    (s2 : List Score) (vs : List Variable)
    (h : initializePop i p n = some (Except.ok (s2, vs))) :
    s2.length = n ∧ vs.length = n ∧
    ∀ v ∈ vs, v.length = i.bounds.length ∧
      ∀ k, k < i.bounds.length →
        (i.bounds.getD k (0, 0)).1 ≤ v.getD k 0 ∧
        v.getD k 0 < (i.bounds.getD k (0, 0)).2 := by
  have hs := initLoop_ok_spec p i.bounds n (rngInit i.seed) [] [] s2 vs h
  refine ⟨by simpa using hs.1, by simpa using hs.2.1, ?_⟩
  intro v hv
  rcases hs.2.2 v hv with hin | ⟨hib, _⟩
  · simp at hin
  · unfold inBounds at hib
    exact ⟨hib.1, hib.2⟩

/-- Witness for C9 at seed 0, bounds `[(0,1)]`, one individual. -/
theorem initialize_success_shape_app :
    ([(0 : ℚ)] : List Score).length = 1 ∧ ([[(0 : ℚ)]] : List Variable).length = 1 ∧
    ∀ v ∈ ([[(0 : ℚ)]] : List Variable),
      v.length = (SimpleInitializer.with_seed [(0, 1)] 0).bounds.length ∧
      ∀ k, k < (SimpleInitializer.with_seed [(0, 1)] 0).bounds.length →
        ((SimpleInitializer.with_seed [(0, 1)] 0).bounds.getD k (0, 0)).1 ≤ v.getD k 0 ∧
        v.getD k 0 < ((SimpleInitializer.with_seed [(0, 1)] 0).bounds.getD k (0, 0)).2 :=
  initialize_success_shape (SimpleInitializer.with_seed [(0, 1)] 0)
    (fun _ => Except.ok 0) 1 [0] [[0]]
    (by norm_num [initializePop, initLoop, genVector, randomRangeQ, rngUnit, rngInit,
      RNG_MOD, SimpleInitializer.with_seed])

/-- Witness for C10 at a concrete mismatched-dimension input. -/
theorem crossover_total_truncating_app :
    ∃ out, crossover_one ⟨1/2⟩ ([1, 2] : Variable) ([3] : Variable) (fun _ => 0) =
      Except.ok out ∧
      out.length = min 2 1 ∧
      ∀ k, k < out.length →
        out.getD k 0 = ([1, 2] : Variable).getD k 0 ∨
        out.getD k 0 = ([3] : Variable).getD k 0 :=
  crossover_total_truncating ⟨1/2⟩ [1, 2] [3] (fun _ => 0)
